import Mathlib

/-!
Verification of the deployment-step dependency graph and content-addressed
caching subsystem of the scalyr-agent-2 build system.

The embedding follows `agent_tools/environment_deployments.py` (classes
`DeploymentStep`, `DockerFileDeploymentStep`, `ShellScriptDeploymentStep`,
`Deployment`), `agent_build/tools/builder.py` (`ArtifactBuilderStep`), and
the CLI handler in `scripts/run_deployment.py` /
`scripts/cicd/run_deployment.py`.

Modelling conventions:
* Paths are lists of components, relative to the project source root
  (`__SOURCE_ROOT__`); their string form joins components with "/", which
  is what `str(path.relative_to(__SOURCE_ROOT__))` produces on posix.
  `sorted()` over `pathlib.Path` values compares the parts tuples
  (CPython's `Path.__lt__` compares `_cparts`); for paths below a common
  root that is lexicographic comparison of the root-relative component
  lists, with each component compared as a string.  This differs from
  sorting by the root-relative *string* form whenever one component is a
  strict prefix of a sibling component that continues with a character
  below `/` (e.g. `a/b.txt` sorts before `a.txt` by parts, after it by
  string).
* A filesystem is a finite list of regular files, each with a path, a
  permission `st_mode` value, and raw content bytes.  File names are taken
  to be literal (no glob metacharacters inside a concrete file name), so
  re-globbing a resolved path (`file_glob.parent.glob(file_glob.name)` in
  `DeploymentStep.checksum`) finds exactly that path when it exists.
* `hashlib.sha256` is modelled by an arbitrary function
  `hash : List Nat → String` applied to the exact byte stream that the
  Python code feeds to `sha256.update` calls.  Theorems are proved for
  every such function (or evaluated at a concrete injective stand-in), so
  they hold in particular for SHA-256.
* Subprocess / docker side effects are modelled as explicit transitions on
  a `World` record (local image tags, containers, cache files, executor
  invocation log); errors raised by `subprocess.check_call` are modelled
  with `Except`.
-/

namespace ScalyrDeploy

/-- UTF-8 encoding of a single code point, as byte values. -/
def utf8Char (c : Nat) : List Nat :=
  if c < 0x80 then [c]
  else if c < 0x800 then [0xC0 + c / 64, 0x80 + c % 64]
  else if c < 0x10000 then
    [0xE0 + c / 4096, 0x80 + (c / 64) % 64, 0x80 + c % 64]
  else
    [0xF0 + c / 262144, 0x80 + (c / 4096) % 64, 0x80 + (c / 64) % 64,
     0x80 + c % 64]

/-- Byte stream of a string, as produced by Python's `str.encode()`. -/
def utf8 (s : String) : List Nat :=
  s.data.flatMap (fun c => utf8Char c.toNat)

/-- Decimal digits of a natural number (`fuel` bounds the recursion so
that it is structural; `fuel = n + 1` always suffices). -/
def natDigitsAux : Nat → Nat → List Char
  | 0, _ => []
  | fuel + 1, n =>
    if n < 10 then [Char.ofNat (48 + n)]
    else natDigitsAux fuel (n / 10) ++ [Char.ofNat (48 + n % 10)]

/-- Python's `str(n)` for a non-negative integer. -/
def natToString (n : Nat) : String := String.mk (natDigitsAux (n + 1) n)

/-- Python's `str.lower()` on ASCII data. -/
def strLower (s : String) : String :=
  String.mk (s.data.map (fun c =>
    if c.isUpper then Char.ofNat (c.toNat + 32) else c))

/-- `re.sub(r'(?<!^)(?=[A-Z])', '_', class_name).lower()` from
`DeploymentStep.name`: insert `_` before every capital letter that is not
the first character, then lowercase everything. -/
def snakeCase (s : String) : String :=
  match s.data with
  | [] => ""
  | c :: rest =>
    strLower (String.mk (c :: rest.flatMap (fun ch => if ch.isUpper then ['_', ch] else [ch])))

/-- A filesystem path relative to the project source root, by components. -/
abbrev FilePath' := List String

/-- Root-relative string form of a path (posix separator). -/
def pathStr (p : FilePath') : String := String.intercalate "/" p

/-- One regular file: root-relative path, `st_mode`, raw content bytes. -/
structure FileEntry where
  path : FilePath'
  mode : Nat
  content : List Nat
deriving DecidableEq

/-- Filesystem state under the source root: a list of regular files. -/
abbrev FS := List FileEntry

/-- Read a file's `(st_mode, content)` if it exists. -/
def FS.read (fs : FS) (p : FilePath') : Option (Nat × List Nat) :=
  (fs.find? (fun e => decide (e.path = p))).map (fun e => (e.mode, e.content))

/-- One component of a glob pattern: either a literal name or a
`*suffix` wildcard (e.g. `*` is `star ""`, `*.txt` is `star ".txt"`). -/
inductive GlobComp where
  | lit (s : String)
  | star (suffix : String)
deriving DecidableEq

/-- A glob pattern relative to the source root. -/
abbrev GlobPat := List GlobComp

def GlobComp.matches : GlobComp → String → Bool
  | .lit s, name => decide (s = name)
  | .star suffix, name => suffix.data.isSuffixOf name.data

/-- Componentwise glob match against a whole relative path. -/
def globMatch : GlobPat → FilePath' → Bool
  | [], [] => true
  | g :: gs, c :: cs => g.matches c && globMatch gs cs
  | _, _ => false

/-- `__SOURCE_ROOT__.glob(pattern)`: every file of the filesystem whose
relative path matches the pattern, in directory-iteration (here: `fs`)
order. -/
def glob (fs : FS) (pat : GlobPat) : List FilePath' :=
  (fs.map (·.path)).filter (fun p => globMatch pat p)

/-- Python's `str` ordering: lexicographic comparison of the code
points. -/
def charListLt : List Char → List Char → Bool
  | _, [] => false
  | [], _ :: _ => true
  | a :: as, b :: bs =>
    if a.toNat < b.toNat then true
    else if b.toNat < a.toNat then false
    else charListLt as bs

def strLt (a b : String) : Bool := charListLt a.data b.data

/-- CPython's `pathlib.Path.__lt__`: the parts tuples are compared
lexicographically, each component as a string.  For paths below the
common source root the shared root components are equal, so the order
is decided by the root-relative component lists compared here. -/
def pathPartsLt : FilePath' → FilePath' → Bool
  | _, [] => false
  | [], _ :: _ => true
  | a :: as, b :: bs =>
    if strLt a b then true
    else if strLt b a then false
    else pathPartsLt as bs

/-- Insert a path into a list sorted by `pathlib` Path order. -/
def insertPath (x : FilePath') : List FilePath' → List FilePath'
  | [] => [x]
  | y :: ys => if pathPartsLt y x then y :: insertPath x ys else x :: y :: ys

/-- `sorted(...)` over `pathlib.Path` values below a common root:
parts-tuple order, as a stable insertion sort. -/
def sortPaths (ps : List FilePath') : List FilePath' :=
  ps.foldr insertPath []

/-- Insertion by the order the spec describes instead: the
root-relative string form. -/
def insertPathByStr (x : FilePath') : List FilePath' → List FilePath'
  | [] => [x]
  | y :: ys =>
    if strLt (pathStr y) (pathStr x) then y :: insertPathByStr x ys
    else x :: y :: ys

/-- The sort the spec's words describe — "lexicographically by their
root-relative string form" — kept separately to compare against the
code's actual Path-order sort. -/
def sortPathsByStr (ps : List FilePath') : List FilePath' :=
  ps.foldr insertPathByStr []

/-- `DeploymentStep._init_used_files`: expand every configured glob
against the source root, collect all matches, deduplicate
(`list(set(...))`) and sort. -/
def initUsedFiles (fs : FS) (fileGlobs : List GlobPat) : List FilePath' :=
  sortPaths ((fileGlobs.foldl (fun acc pat => acc ++ glob fs pat) []).dedup)

/-- Python's `image.replace(":", "_")`: single-character replacement is
a character-wise map. -/
def colonToUnderscore (s : String) : String :=
  String.mk (s.data.map (fun c => if c = ':' then '_' else c))

/--
A constructed `DeploymentStep`, after `__init__` ran.  The three
constructor branches of `__init__` collapse to two shapes:
* `base`: `previous_step` was `None` (then `baseImage = none`) or a base
  docker image string (then `baseImage = some img`);
* `chain`: `previous_step` was another step; its stored
  `base_docker_image` is `previous_step.result_image_name`, which is a
  derived value and therefore not stored here.

`kind` is the Python class name; `arch` is `architecture.value`;
`usedFiles` is the resolved, sorted file list stored by
`_init_used_files`.
-/
inductive DStep where
  | base (kind arch : String) (baseImage : Option String) (usedFiles : List FilePath')
  | chain (kind arch : String) (prev : DStep) (usedFiles : List FilePath')
deriving DecidableEq

namespace DStep

def kind : DStep → String
  | .base k _ _ _ => k
  | .chain k _ _ _ => k

def arch : DStep → String
  | .base _ a _ _ => a
  | .chain _ a _ _ => a

def usedFiles : DStep → List FilePath'
  | .base _ _ _ f => f
  | .chain _ _ _ f => f

/-- `DeploymentStep.name`: the class name in snake case. -/
def name (s : DStep) : String := snakeCase s.kind

/-- `DeploymentStep.initial_docker_image`: the base image of the most
distant ancestor. -/
def initialDockerImage : DStep → Option String
  | .base _ _ bi _ => bi
  | .chain _ _ p _ => p.initialDockerImage

/-- `DeploymentStep.in_docker`. -/
def inDocker (s : DStep) : Bool := s.initialDockerImage.isSome

/-- `DeploymentStep.unique_name`: kind name, then the immediate
predecessor's kind name if any, then the architecture value, then (when
dockerized) the initial docker image with `:` replaced by `_`. -/
def uniqueName (s : DStep) : String :=
  let n := s.name
  let n := match s with
    | .chain _ _ p _ => n ++ "_" ++ p.name
    | .base _ _ _ _ => n
  let n := n ++ "_" ++ s.arch
  match s.initialDockerImage with
  | some img => n ++ "_" ++ colonToUnderscore img
  | none => n

end DStep

/-- `file_glob.parent.glob(file_glob.name)` inside
`DeploymentStep.checksum`, applied to one of the already-resolved paths
from `used_files`: with literal file names this finds exactly the path
itself when it still exists, and nothing otherwise. -/
def reGlob (fs : FS) (p : FilePath') : List FilePath' :=
  if (FS.read fs p).isSome then [p] else []

/-- The three `sha256.update` calls for one file found by the re-glob:
relative path (UTF-8), `str(st_mode)`, raw content bytes. -/
def fileBytes (fs : FS) (p : FilePath') : List Nat :=
  match FS.read fs p with
  | some (m, c) => utf8 (pathStr p) ++ utf8 (natToString m) ++ c
  | none => []

/-- The byte stream that the two nested `for` loops of
`DeploymentStep.checksum` feed to `sha256.update`. -/
def filesStream (fs : FS) (files : List FilePath') : List Nat :=
  files.flatMap (fun p => (reGlob fs p).flatMap (fun q => fileBytes fs q))

/-- `DeploymentStep.checksum`: hash of the used-files stream, with the
previous step's checksum string appended last when a predecessor exists.
`hash` stands for hex-digest SHA-256 over the accumulated stream. -/
def checksum (hash : List Nat → String) : DStep → FS → String
  | .base _ _ _ files, fs => hash (filesStream fs files)
  | .chain _ _ prev files, fs =>
    hash (filesStream fs files ++ utf8 (checksum hash prev fs))

/-- The full byte stream hashed by `DeploymentStep.checksum`. -/
def checksumInput (hash : List Nat → String) : DStep → FS → List Nat
  | .base _ _ _ files, fs => filesStream fs files
  | .chain _ _ prev files, fs =>
    filesStream fs files ++ utf8 (checksum hash prev fs)

/-- `DeploymentStep.cache_key = f"{unique_name}_{checksum}"`. -/
def cacheKey (hash : List Nat → String) (s : DStep) (fs : FS) : String :=
  s.uniqueName ++ "_" ++ checksum hash s fs

/-- `DeploymentStep.result_image_name`, the same as the cache key. -/
def resultImageName (hash : List Nat → String) (s : DStep) (fs : FS) : String :=
  cacheKey hash s fs

/-!
Fallible variant of the checksum.  `file_path.stat()` / `read_bytes()`
can raise `FileNotFoundError` for a path that does not exist; mirroring
that, `fileBytesE` errors when a path handed to it is absent.  The
checksum loop only reads paths produced by the re-glob, which are exactly
the paths that still exist, so `checksumE` in fact never errors — which
is what settles the "missing tracked file raises" claim.
-/

def fileBytesE (fs : FS) (p : FilePath') : Except String (List Nat) :=
  match FS.read fs p with
  | some (m, c) => .ok (utf8 (pathStr p) ++ utf8 (natToString m) ++ c)
  | none => .error ("No such file or directory: " ++ pathStr p)

def filesStreamE (fs : FS) (files : List FilePath') : Except String (List Nat) :=
  files.foldlM (fun acc p =>
    (reGlob fs p).foldlM (fun acc' q => do
      let b ← fileBytesE fs q
      pure (acc' ++ b)) acc) []

def checksumE (hash : List Nat → String) : DStep → FS → Except String String
  | .base _ _ _ files, fs => do
    let st ← filesStreamE fs files
    pure (hash st)
  | .chain _ _ prev files, fs => do
    let st ← filesStreamE fs files
    let pc ← checksumE hash prev fs
    pure (hash (st ++ utf8 pc))

deriving instance DecidableEq for Except

/-!
## Deployment and its orchestration

`Deployment` owns an ordered list of constructed steps.  `deploy` walks
the list in order; `run` dispatches on `in_docker`; `run_in_docker`
implements the cache lookup (local image tag, then serialized image file
in the cache directory) before falling back to the abstract executor
`_run_in_docker`, whose successful effect is tagged as a freshly built
image named `result_image_name` (both subclass implementations —
`docker build -t` for `DockerFileDeploymentStep`, `build_stage` for
`ShellScriptDeploymentStep` — tag exactly that image).
-/

structure Deployment where
  name : String
  arch : String
  steps : List DStep
deriving DecidableEq

/-- Observable world state for running deployments: docker image tags,
docker containers, files present in cache directories (full path
strings), the log of executor invocations (`_run_in_docker` /
`_run_locally` subprocess work), and the log of `DeploymentStep.run`
calls with the cache argument each received. -/
structure World where
  images : List String
  containers : List String
  cacheFiles : List String
  execLog : List String
  runLog : List (DStep × Option String)
deriving DecidableEq

/-- `DeploymentStep.run_in_docker` (the caching wrapper), with a
successful executor: check `docker images -q` for the result tag; else
try `docker load` from the cache file; else build (executor invocation,
which tags `result_image_name`) and, when a cache directory was supplied
and had no file, `docker save` the image into it. -/
def runInDocker (hash : List Nat → String) (fs : FS) (s : DStep)
    (cacheDir : Option String) (w : World) : World :=
  let img := resultImageName hash s fs
  if img ∈ w.images then
    w
  else
    match cacheDir with
    | some cd =>
      if (cd ++ "/" ++ img) ∈ w.cacheFiles then
        { w with images := img :: w.images }
      else
        { w with
          images := img :: w.images
          execLog := w.execLog ++ [s.uniqueName]
          cacheFiles := w.cacheFiles ++ [cd ++ "/" ++ img] }
    | none =>
      { w with images := img :: w.images, execLog := w.execLog ++ [s.uniqueName] }

/-- `ShellScriptDeploymentStep._run_locally`: unconditionally runs the
script subprocess (there is no host-side result cache in this class). -/
def runLocally (s : DStep) (w : World) : World :=
  { w with execLog := w.execLog ++ [s.uniqueName] }

/-- `DeploymentStep.run`: record the invocation, then dispatch on
`in_docker`. -/
def runStep (hash : List Nat → String) (fs : FS) (s : DStep)
    (cacheDir : Option String) (w : World) : World :=
  let w := { w with runLog := w.runLog ++ [(s, cacheDir)] }
  if s.inDocker then runInDocker hash fs s cacheDir w else runLocally s w

/-- `Deployment.deploy`: iterate the steps in order, passing each the
per-step cache sub-directory `cache_dir / step.cache_key` when a cache
directory was supplied. -/
def deploy (hash : List Nat → String) (fs : FS) (d : Deployment)
    (cacheDir : Option String) (w : World) : World :=
  d.steps.foldl (fun w s =>
    runStep hash fs s (cacheDir.map (fun cd => cd ++ "/" ++ cacheKey hash s fs)) w) w

/-- `Deployment.result_image_name = steps[-1].result_image_name.lower()`
(`none` models the `IndexError` on an empty step list). -/
def Deployment.resultImageName (hash : List Nat → String) (fs : FS)
    (d : Deployment) : Option String :=
  d.steps.getLast?.map (fun s => strLower (ScalyrDeploy.resultImageName hash s fs))

/-!
## Global registries

`DeploymentStep.__init__` executes
`type(self).ALL_DEPLOYMENT_STEPS[self.name] = self`; all step classes
share the single class-level dictionary, and the key is `self.name` (the
snake-cased class name), not `unique_name`.  `Deployment.__init__` ends
with `type(self).ALL_DEPLOYMENTS[self.name] = self`, keyed by the plain
deployment name.  A Python dict assignment replaces any previous entry
for the same key; the dicts are modelled as association lists with the
newest binding in front.
-/

abbrev Registry (α : Type) := List (String × α)

def Registry.lookup {α : Type} (reg : Registry α) (k : String) : Option α :=
  (reg.find? (fun e => decide (e.1 = k))).map (·.2)

/-- `ALL_DEPLOYMENT_STEPS[self.name] = self`. -/
def registerStep (reg : Registry DStep) (s : DStep) : Registry DStep :=
  (s.name, s) :: reg

/-- `ALL_DEPLOYMENTS[self.name] = self`. -/
def registerDeployment (reg : Registry Deployment) (d : Deployment) : Registry Deployment :=
  (d.name, d) :: reg

/-!
## CLI: `get-deployment-all-cache-names`

From `scripts/run_deployment.py` (identically in
`scripts/cicd/run_deployment.py`): collect `step.cache_key` for every
step in order, reverse the list, and print it with `json.dumps`.
-/

/-- `json.dumps` escaping for one string (quote and backslash; the cache
keys are plain snake-case/hex ASCII, so nothing else is ever hit). -/
def jsonEscape (s : String) : String :=
  (s.replace "\\" "\\\\").replace "\"" "\\\""

/-- `json.dumps` of a list of strings, with its default ", " separator. -/
def jsonDumpsStrings (l : List String) : String :=
  "[" ++ String.intercalate ", " (l.map (fun s => "\"" ++ jsonEscape s ++ "\"")) ++ "]"

/-- The `get-deployment-all-cache-names` handler: the `for` loop appends
every step's cache key, then the reversed list is JSON-printed. -/
def getDeploymentAllCacheNames (hash : List Nat → String) (fs : FS)
    (d : Deployment) : String :=
  jsonDumpsStrings
    ((d.steps.foldl (fun acc s => acc ++ [cacheKey hash s fs]) []).reverse)

/-!
## `ShellScriptDeploymentStep._run_in_docker` (environment_deployments.py)

The executor used on a docker cache miss: remove any stale intermediate
container, `docker run` a fresh one (copying the tracked files in),
`docker commit` it to an intermediate image, run the script through
`build_in_docker.build_stage` (which tags `result_image_name` on
success), and in a `finally:` block remove the intermediate container
and the intermediate image on every exit path.  (The second cleanup call
spells the subcommand with a stray trailing space — `"image "` — in the
source; it is modelled as the intended intermediate-image removal.)

Docker removes containers and images by their unique name, so removal is
modelled by filtering that name out.  `ok` is the outcome of the
`build_stage` invocation; `check_call` raising on failure is the
`.error` result.
-/

def intermediateImageName (hash : List Nat → String) (s : DStep) (fs : FS) : String :=
  resultImageName hash s fs ++ "-intermediate"

/-- Remove an entry addressed by its unique name (`docker rm -f`,
`docker image rm -f`, `shutil.rmtree`). -/
def removeByName (name : String) (l : List String) : List String :=
  l.filter (fun c => c != name)

def shellRunInDockerImpl (hash : List Nat → String) (fs : FS) (s : DStep)
    (ok : Bool) (w : World) : World × Except String Unit :=
  let inter := intermediateImageName hash s fs
  -- docker rm -f <intermediate>  (before the try block)
  let w := { w with containers := removeByName inter w.containers }
  -- try: docker run --name <intermediate> ... (copies tracked files in)
  let w := { w with containers := inter :: w.containers }
  -- docker commit <intermediate> <intermediate>
  let w := { w with images := inter :: w.images }
  -- build_in_docker.build_stage(command, ..., image_name=result_image_name, ...)
  let (w, res) :=
    if ok then
      ({ w with
          images := resultImageName hash s fs :: w.images
          execLog := w.execLog ++ [s.uniqueName] }, (Except.ok () : Except String Unit))
    else
      (w, Except.error "build_stage failed")
  -- finally: docker rm -f <intermediate>; docker image rm -f <intermediate>
  let w := { w with containers := removeByName inter w.containers }
  let w := { w with images := removeByName inter w.images }
  (w, res)

/-!
## `ArtifactBuilderStep` (agent_build/tools/builder.py)

The variant of the step abstraction with per-step output directories
under a build root.  Only the pieces exercised by its `run`/`_run`
control flow are modelled: the cache-hit check on the final output
directory, the temp-output directory lifecycle, and the container used
for a containerized run.  Dependency steps and the isolated source root
preparation do not affect these claims and are not tracked.
-/

structure ABStep where
  /-- `self.name`. -/
  name : String
  /-- `self.id`: `f"{name}__{checksum}".lower()` over `overall_info`;
  its computation is orthogonal to the run control flow modelled here. -/
  id : String
  /-- `self.base_docker_image is not None` (`runs_in_docker`). -/
  runsInDocker : Bool
deriving DecidableEq

/-- World state for builder steps: directories that exist under the
build root, and docker containers. -/
structure BWorld where
  dirs : List String
  containers : List String
deriving DecidableEq

/-- `self._build_root / "step_outputs" / self.id`. -/
def outputDirectory (buildRoot : String) (s : ABStep) : String :=
  buildRoot ++ "/step_outputs/" ++ s.id

/-- `self.output_directory.parent / f"~{self.output_directory.name}"`. -/
def tempOutputDirectory (buildRoot : String) (s : ABStep) : String :=
  buildRoot ++ "/step_outputs/~" ++ s.id

/-- The fixed container name in `ArtifactBuilderStep._run`. -/
def abContainerName : String := "agent-build-builder-step"

/-- `ArtifactBuilderStep._run_in_docker`: `docker rm -f` any stale
container, then `docker run --name agent-build-builder-step ...`; a
non-zero script exit makes `check_call_with_log` raise, with the (now
stopped) container left in place. -/
def abRunInDocker (ok : Bool) (w : BWorld) : BWorld × Except String Unit :=
  let w := { w with containers := removeByName abContainerName w.containers }
  let w := { w with containers := abContainerName :: w.containers }
  if ok then (w, .ok ()) else (w, .error "docker run failed")

/-- `ArtifactBuilderStep._run` (previous steps and the step-info file
aside): containerized path removes the container only after a successful
run; the `except` clause logs the tracked-glob hint and re-raises,
without touching the container. -/
def abRunInner (s : ABStep) (ok : Bool) (w : BWorld) : BWorld × Except String Unit :=
  if s.runsInDocker then
    match abRunInDocker ok w with
    | (w, .ok ()) =>
      ({ w with containers := removeByName abContainerName w.containers }, .ok ())
    | (w, .error e) => (w, .error e)
  else
    if ok then (w, .ok ()) else (w, .error "subprocess failed")

/-- `ArtifactBuilderStep.run`: return on a cache hit (final output
directory exists); otherwise recreate the temp output directory, run,
and only on success rename the temp directory onto the final one. -/
def abRun (buildRoot : String) (s : ABStep) (ok : Bool) (w : BWorld) :
    BWorld × Except String Unit :=
  if outputDirectory buildRoot s ∈ w.dirs then
    (w, .ok ())
  else
    match abRunInner s ok
        { w with dirs := tempOutputDirectory buildRoot s
            :: removeByName (tempOutputDirectory buildRoot s) w.dirs } with
    | (w', .ok ()) =>
      ({ w' with
          dirs := outputDirectory buildRoot s
            :: removeByName (tempOutputDirectory buildRoot s) w'.dirs }, .ok ())
    | (w', .error e) => (w', .error e)

/-!
## Concrete evaluation material

`demoHash` is an injective executable stand-in for the SHA-256 hex
digest: it renders the input byte list.  Every property proved below for
an arbitrary `hash` is instantiated on it; properties that exhibit
collisions of the *input stream* hold for every hash function, SHA-256
included.
-/

def demoHash (l : List Nat) : String :=
  "h" ++ String.mk (l.flatMap (fun n =>
    [Char.ofNat (65 + n / 16 % 16), Char.ofNat (65 + n % 16)]))

/-- Tracked files of the collision scenario: the two root-level files
`a` and `ab` (sorted order of their relative string forms). -/
def collisionFiles : List FilePath' := [["a"], ["ab"]]

/-- A step tracking `a` and `ab`, no predecessor, not dockerized. -/
def collisionStep : DStep := .base "DemoStep" "x86_64" none collisionFiles

/-- Filesystem state 1: `a` is empty, `ab` contains `"ab33188Z"`. -/
def collisionFS1 : FS :=
  [⟨["a"], 33188, []⟩, ⟨["ab"], 33188, utf8 "ab33188Z"⟩]

/-- Filesystem state 2: `a` contains `"ab33188"`, `ab` contains `"Z"`. -/
def collisionFS2 : FS :=
  [⟨["a"], 33188, utf8 "ab33188"⟩, ⟨["ab"], 33188, utf8 "Z"⟩]

/-- Empty world: fresh docker daemon, no cache files, no logs. -/
def emptyWorld : World := ⟨[], [], [], [], []⟩

/-- `collisionFS1` extended with an extra file tracked by no step. -/
def extendedFS : FS := collisionFS1 ++ [⟨["untracked.txt"], 33188, [1, 2, 3]⟩]

/-!
## C1 — cache keys are determined by kind, architecture, chain and
tracked-file content
-/

/-- The two filesystem states agree on every file tracked by the step
and, recursively, by its whole predecessor chain. -/
def agreeOnTracked : DStep → FS → FS → Bool
  | .base _ _ _ files, fs, fs' =>
    files.all (fun p => decide (FS.read fs p = FS.read fs' p))
  | .chain _ _ prev files, fs, fs' =>
    files.all (fun p => decide (FS.read fs p = FS.read fs' p))
      && agreeOnTracked prev fs fs'

theorem filesStream_congr (fs fs' : FS) (files : List FilePath')
    (h : ∀ p ∈ files, FS.read fs p = FS.read fs' p) :
    filesStream fs files = filesStream fs' files := by
  induction files with
  | nil => rfl
  | cons p rest ih =>
    have hp := h p (List.mem_cons_self ..)
    have hrest := ih (fun q hq => h q (List.mem_cons_of_mem _ hq))
    have hfb : fileBytes fs p = fileBytes fs' p := by
      simp [fileBytes, hp]
    simp only [filesStream, List.flatMap_cons] at *
    rw [hrest]
    congr 1
    simp only [reGlob, hp]
    cases hopt : FS.read fs' p <;> simp [hopt, hfb]

theorem checksum_congr (hash : List Nat → String) (s : DStep) (fs fs' : FS)
    (h : agreeOnTracked s fs fs' = true) :
    checksum hash s fs = checksum hash s fs' := by
  induction s with
  | base k a bi files =>
    simp only [agreeOnTracked, List.all_eq_true, decide_eq_true_eq] at h
    simp [checksum, filesStream_congr fs fs' files h]
  | chain k a prev files ih =>
    simp only [agreeOnTracked, Bool.and_eq_true, List.all_eq_true,
      decide_eq_true_eq] at h
    simp [checksum, filesStream_congr fs fs' files h.1, ih h.2]

/-- C1: two `DeploymentStep` instances with identical kind (class
name), architecture, predecessor chain and tracked-file content produce
byte-for-byte identical cache keys: the cache key is a pure function of
the step's identity-bearing fields and of the content of its (and its
predecessors') tracked files, so any two filesystem states agreeing on
those files — in particular, the identical state seen by a fresh
process — yield the exact same string, for every hash function and
hence for SHA-256. -/
theorem cache_key_determined_by_tracked_content
    (hash : List Nat → String) (s : DStep) (fs fs' : FS)
    (h : agreeOnTracked s fs fs' = true) :
    cacheKey hash s fs = cacheKey hash s fs' := by
  simp [cacheKey, checksum_congr hash s fs fs' h]

/-- Witness for C1: the collision step over `collisionFS1` and over the
same state extended with an extra untracked file gets the same cache
key. -/
theorem cache_key_determined_by_tracked_content_witness :
    agreeOnTracked collisionStep collisionFS1 extendedFS = true
    ∧ cacheKey demoHash collisionStep collisionFS1
        = cacheKey demoHash collisionStep extendedFS :=
  ⟨by decide,
   cache_key_determined_by_tracked_content demoHash collisionStep collisionFS1
     extendedFS (by decide)⟩

/-!
## C2 — "checksum changes iff tracked files or predecessor checksum
change" fails: the per-file hash input has no separators
-/

set_option maxHeartbeats 2000000 in
/-- C2 (code bug): the hash input concatenates relative path, mode
string and content with no separators or length framing, so two
different tracked-file contents can feed the *identical* byte stream to
SHA-256.  Here `collisionStep` tracks `a` and `ab`; moving the bytes
`"ab33188"` from the content of `ab` to the content of `a` leaves the
full stream — hence the checksum and the cache key, for every hash
function including SHA-256 — unchanged, although both files' contents
changed. -/
theorem checksum_collision_despite_content_change :
    checksumInput demoHash collisionStep collisionFS1
        = checksumInput demoHash collisionStep collisionFS2
    ∧ checksum demoHash collisionStep collisionFS1
        = checksum demoHash collisionStep collisionFS2
    ∧ FS.read collisionFS1 ["a"] ≠ FS.read collisionFS2 ["a"]
    ∧ FS.read collisionFS1 ["ab"] ≠ FS.read collisionFS2 ["ab"] := by
  refine ⟨by decide, by decide, by decide, by decide⟩

/-!
## C3 — the checksum's file order is pathlib's parts order, not the
root-relative string order the spec describes
-/

/-- The ContentChecksum contract exactly as the spec words it: sort the
resolved tracked-file paths lexicographically by their *root-relative
string form*, then hash, for each file in that order, (a) the
root-relative path UTF-8 encoded, (b) the permission-mode value as a
string, (c) the raw content bytes, and append the predecessor-checksum
seed last when present. -/
def specContentChecksum (hash : List Nat → String) (fs : FS)
    (resolved : List FilePath') (seed : Option String) : String :=
  hash ((sortPathsByStr resolved.dedup).flatMap (fun p => fileBytes fs p)
    ++ (match seed with | some c => utf8 c | none => []))

/-- The same contract amended to the order the code actually uses:
`sorted()` over `pathlib.Path` values compares parts tuples, not the
root-relative strings. -/
def partsOrderContentChecksum (hash : List Nat → String) (fs : FS)
    (resolved : List FilePath') (seed : Option String) : String :=
  hash ((sortPaths resolved.dedup).flatMap (fun p => fileBytes fs p)
    ++ (match seed with | some c => utf8 c | none => []))

theorem foldl_append_glob (fs : FS) (globs : List GlobPat) :
    ∀ acc : List FilePath',
      globs.foldl (fun acc pat => acc ++ glob fs pat) acc
        = acc ++ globs.flatMap (glob fs) := by
  induction globs with
  | nil => intro acc; simp
  | cons g rest ih => intro acc; simp [ih, List.append_assoc]

theorem mem_insertPath {x p : FilePath'} :
    ∀ {l : List FilePath'}, p ∈ insertPath x l ↔ p = x ∨ p ∈ l := by
  intro l
  induction l with
  | nil => simp [insertPath]
  | cons y ys ih =>
    cases hlt : pathPartsLt y x with
    | true =>
      simp only [insertPath, hlt, if_true, List.mem_cons, ih]
      tauto
    | false =>
      simp [insertPath, hlt]

theorem mem_sortPaths {p : FilePath'} :
    ∀ {l : List FilePath'}, p ∈ sortPaths l ↔ p ∈ l := by
  intro l
  induction l with
  | nil => simp [sortPaths]
  | cons y ys ih =>
    simp only [sortPaths, List.foldr_cons, mem_insertPath, List.mem_cons]
    rw [show ys.foldr insertPath [] = sortPaths ys from rfl, ih]

theorem read_isSome_of_mem_glob (fs : FS) (pat : GlobPat) (p : FilePath')
    (h : p ∈ glob fs pat) : (FS.read fs p).isSome = true := by
  simp only [glob, List.mem_filter, List.mem_map] at h
  obtain ⟨⟨e, he, hep⟩, _⟩ := h
  have hfind : (fs.find? (fun e => decide (e.path = p))).isSome = true := by
    rw [List.find?_isSome]
    exact ⟨e, he, by simp [hep]⟩
  cases hf : fs.find? (fun e => decide (e.path = p)) with
  | none => rw [hf] at hfind; simp at hfind
  | some e₂ => simp [FS.read, hf]

theorem read_isSome_of_mem_initUsedFiles (fs : FS) (globs : List GlobPat)
    (p : FilePath') (h : p ∈ initUsedFiles fs globs) :
    (FS.read fs p).isSome = true := by
  simp only [initUsedFiles, mem_sortPaths, List.mem_dedup,
    foldl_append_glob, List.nil_append, List.mem_flatMap] at h
  obtain ⟨pat, _, hp⟩ := h
  exact read_isSome_of_mem_glob fs pat p hp

theorem filesStream_of_present (fs : FS) (files : List FilePath')
    (h : ∀ p ∈ files, (FS.read fs p).isSome = true) :
    filesStream fs files = files.flatMap (fun p => fileBytes fs p) := by
  induction files with
  | nil => rfl
  | cons p rest ih =>
    have hp := h p (List.mem_cons_self ..)
    have hrest := ih (fun q hq => h q (List.mem_cons_of_mem _ hq))
    simp only [filesStream, List.flatMap_cons] at *
    rw [hrest]
    congr 1
    simp [reGlob, hp]

/-- Two tracked files where the two orders disagree: component `a` is a
strict prefix of sibling file name `a.txt`, and `.` sorts below `/`. -/
def prefixFS : FS :=
  [⟨["a.txt"], 33188, [49]⟩, ⟨["a", "b.txt"], 33188, [50]⟩]

def prefixGlobs : List GlobPat :=
  [[GlobComp.lit "a.txt"], [GlobComp.lit "a", GlobComp.lit "b.txt"]]

def prefixResolved : List FilePath' := [["a.txt"], ["a", "b.txt"]]

def stepPrefix : DStep :=
  .base "DemoStep" "x86_64" none (initUsedFiles prefixFS prefixGlobs)

/-- Counterexample for C3 as stated: for the tracked files `a.txt` and
`a/b.txt`, `sorted()` over `pathlib.Path` values puts `a/b.txt` first
(parts-tuple comparison: `"a" < "a.txt"`), while the root-relative
string order puts `a.txt` first (`.` sorts below `/`); the checksum the
code computes therefore differs from the spec-worded string-order
contract, and instead matches the parts-order contract. -/
theorem checksum_not_sorted_by_string_form :
    prefixGlobs.flatMap (glob prefixFS) = prefixResolved
    ∧ initUsedFiles prefixFS prefixGlobs = [["a", "b.txt"], ["a.txt"]]
    ∧ sortPathsByStr prefixResolved = [["a.txt"], ["a", "b.txt"]]
    ∧ checksum demoHash stepPrefix prefixFS
        ≠ specContentChecksum demoHash prefixFS prefixResolved none
    ∧ checksum demoHash stepPrefix prefixFS
        = partsOrderContentChecksum demoHash prefixFS prefixResolved none := by
  refine ⟨by decide, by decide, by decide, by decide, by decide⟩

/-- C3 (amended): for a step whose used files were resolved by
`_init_used_files` over the same filesystem state, the checksum is the
ContentChecksum contract with the sort in `pathlib` Path order — the
resolved paths deduplicated and sorted by parts tuple (which agrees
with the root-relative string order except when a component is a strict
prefix of a sibling component continuing with a character below `/`),
then per file (a) relative path UTF-8, (b) mode string, (c) raw
content, with the predecessor checksum appended last — for a first
step (with or without base image) and for a chained step. -/
theorem checksum_matches_parts_order_contract (hash : List Nat → String)
    (fs : FS) (k a : String) (bi : Option String) (p : DStep)
    (globs : List GlobPat) :
    checksum hash (.base k a bi (initUsedFiles fs globs)) fs
      = partsOrderContentChecksum hash fs (globs.flatMap (glob fs)) none
    ∧ checksum hash (.chain k a p (initUsedFiles fs globs)) fs
      = partsOrderContentChecksum hash fs (globs.flatMap (glob fs))
          (some (checksum hash p fs)) := by
  have hinit : initUsedFiles fs globs
      = sortPaths (globs.flatMap (glob fs)).dedup := by
    simp [initUsedFiles, foldl_append_glob]
  have hstream : filesStream fs (initUsedFiles fs globs)
      = (sortPaths (globs.flatMap (glob fs)).dedup).flatMap
          (fun q => fileBytes fs q) := by
    rw [filesStream_of_present fs _ (read_isSome_of_mem_initUsedFiles fs globs),
      hinit]
  constructor
  · simp [checksum, partsOrderContentChecksum, hstream]
  · simp [checksum, partsOrderContentChecksum, hstream]

/-!
## C9 — a missing tracked file is silently skipped, not raised
-/

/-- The configured tracked-file globs of the missing-file scenario: the
single literal file `f1.txt`. -/
def missingGlobs : List GlobPat := [[GlobComp.lit "f1.txt"]]

/-- Filesystem state at step-construction time: `f1.txt` exists. -/
def fsWithF1 : FS := [⟨["f1.txt"], 33188, [120]⟩]

/-- Filesystem state at checksum time: `f1.txt` was deleted. -/
def fsWithoutF1 : FS := []

/-- A step constructed while `f1.txt` existed, so its resolved
`used_files` list references the (now missing) file. -/
def stepMissing : DStep :=
  .base "DemoStep" "x86_64" none (initUsedFiles fsWithF1 missingGlobs)

/-- Counterexample for C9: the tracked-file list references `f1.txt`,
which is missing from `fsWithoutF1`; resolving tracked files over the
new state silently yields nothing, and computing the checksum succeeds
with the file silently skipped from the hash input (the hash of the
empty stream) — no error is raised anywhere. -/
theorem missing_tracked_file_silently_skipped :
    DStep.usedFiles stepMissing = [["f1.txt"]]
    ∧ FS.read fsWithoutF1 ["f1.txt"] = none
    ∧ initUsedFiles fsWithoutF1 missingGlobs = []
    ∧ checksumE demoHash stepMissing fsWithoutF1 = .ok (demoHash [])
    ∧ checksum demoHash stepMissing fsWithoutF1 = demoHash [] := by
  refine ⟨by decide, by decide, by decide, by decide, by decide⟩

theorem innerFoldE_eq (fs : FS) (p : FilePath') (acc : List Nat) :
    ((reGlob fs p).foldlM (fun acc' q => do
        let b ← fileBytesE fs q
        pure (acc' ++ b)) acc : Except String (List Nat))
      = Except.ok (acc ++ (reGlob fs p).flatMap (fun q => fileBytes fs q)) := by
  cases hread : FS.read fs p with
  | none =>
    simp only [reGlob, hread, Option.isSome_none, Bool.false_eq_true, if_false,
      List.foldlM_nil, List.flatMap_nil, List.append_nil]
    rfl
  | some mc =>
    obtain ⟨m, c⟩ := mc
    simp only [reGlob, hread, Option.isSome_some, if_true, List.foldlM_cons,
      List.foldlM_nil, List.flatMap_cons, List.flatMap_nil]
    rw [show fileBytesE fs p = Except.ok (fileBytes fs p) by
      simp [fileBytesE, fileBytes, hread]]
    show Except.ok (acc ++ fileBytes fs p) = _
    rw [List.append_nil]

theorem filesStreamE_eq (fs : FS) (files : List FilePath') :
    ∀ acc : List Nat,
      (files.foldlM (fun acc p =>
        (reGlob fs p).foldlM (fun acc' q => do
          let b ← fileBytesE fs q
          pure (acc' ++ b)) acc) acc : Except String (List Nat))
        = Except.ok (acc ++ filesStream fs files) := by
  induction files with
  | nil =>
    intro acc
    simp only [List.foldlM_nil, filesStream, List.flatMap_nil, List.append_nil]
    rfl
  | cons p rest ih =>
    intro acc
    rw [List.foldlM_cons, innerFoldE_eq fs p acc]
    rw [show ∀ (x : List Nat) (g : List Nat → Except String (List Nat)),
        (Except.ok x >>= g) = g x from fun _ _ => rfl]
    rw [ih]
    simp [filesStream, List.append_assoc]

/-- C9 (amended): computing a step's checksum never raises for a
missing tracked file — the fallible reading semantics always returns
`ok` with exactly the total checksum's value, because the re-glob step
silently skips every path that no longer exists. -/
theorem checksumE_never_errors (hash : List Nat → String) (s : DStep) (fs : FS) :
    checksumE hash s fs = .ok (checksum hash s fs) := by
  induction s with
  | base k a bi files =>
    simp only [checksumE, checksum]
    rw [show filesStreamE fs files = Except.ok (filesStream fs files) from
      filesStreamE_eq fs files []]
    rfl
  | chain k a prev files ih =>
    simp only [checksumE, checksum]
    rw [show filesStreamE fs files = Except.ok (filesStream fs files) from
      filesStreamE_eq fs files [], ih]
    rfl

/-!
## C10 — the construction-time registries key by plain name and keep
the most recent instance
-/

theorem option_map_pair_snd {α : Type} (nameOf : α → String) (o : Option α) :
    ((o.map (fun s => (nameOf s, s))).map (·.2)) = o := by
  cases o <;> rfl

theorem foldl_registerStep (ss : List DStep) :
    ∀ r : Registry DStep,
      ss.foldl registerStep r
        = (ss.map (fun s => (DStep.name s, s))).reverse ++ r := by
  induction ss with
  | nil => intro r; simp
  | cons a rest ih =>
    intro r
    simp only [List.foldl_cons, List.map_cons, List.reverse_cons, ih,
      registerStep, List.append_assoc, List.singleton_append]

theorem foldl_registerDeployment (ds : List Deployment) :
    ∀ r : Registry Deployment,
      ds.foldl registerDeployment r
        = (ds.map (fun d => (Deployment.name d, d))).reverse ++ r := by
  induction ds with
  | nil => intro r; simp
  | cons a rest ih =>
    intro r
    simp only [List.foldl_cons, List.map_cons, List.reverse_cons, ih,
      registerDeployment, List.append_assoc, List.singleton_append]

theorem lookup_foldl_registerStep (ss : List DStep) (k : String) :
    Registry.lookup (ss.foldl registerStep []) k
      = ss.reverse.find? (fun t => decide (DStep.name t = k)) := by
  rw [foldl_registerStep ss [], List.append_nil]
  show (((ss.map (fun s => (DStep.name s, s))).reverse.find?
      (fun e => decide (e.1 = k))).map (·.2)) = _
  rw [← List.map_reverse, List.find?_map, option_map_pair_snd]
  rfl

theorem lookup_foldl_registerDeployment (ds : List Deployment) (k : String) :
    Registry.lookup (ds.foldl registerDeployment []) k
      = ds.reverse.find? (fun t => decide (Deployment.name t = k)) := by
  rw [foldl_registerDeployment ds [], List.append_nil]
  show (((ds.map (fun d => (Deployment.name d, d))).reverse.find?
      (fun e => decide (e.1 = k))).map (·.2)) = _
  rw [← List.map_reverse, List.find?_map, option_map_pair_snd]
  rfl

/-- C10: a constructed step is registered in `ALL_DEPLOYMENT_STEPS`
under its kind name (the snake-cased class name — `registerStep` keys by
`DStep.name`, never by `unique_name`), and a constructed deployment in
`ALL_DEPLOYMENTS` under its plain name; after any construction sequence
a key maps to the most recently constructed instance bearing that name,
and registering an instance whose name is already present (another
instance of the same step class, whatever its architecture or
predecessor) silently replaces the earlier entry. -/
theorem registries_keep_latest_instance (ss : List DStep) (ds : List Deployment)
    (k : String) (reg : Registry DStep) (regd : Registry Deployment)
    (s : DStep) (d : Deployment) :
    Registry.lookup (ss.foldl registerStep []) k
      = ss.reverse.find? (fun t => decide (DStep.name t = k))
    ∧ Registry.lookup (ds.foldl registerDeployment []) k
      = ds.reverse.find? (fun t => decide (Deployment.name t = k))
    ∧ Registry.lookup (registerStep reg s) k
      = (if DStep.name s = k then some s else Registry.lookup reg k)
    ∧ Registry.lookup (registerDeployment regd d) k
      = (if Deployment.name d = k then some d else Registry.lookup regd k) := by
  refine ⟨lookup_foldl_registerStep ss k, lookup_foldl_registerDeployment ds k,
    ?_, ?_⟩
  · by_cases h : DStep.name s = k <;>
      simp [Registry.lookup, registerStep, h]
  · by_cases h : Deployment.name d = k <;>
      simp [Registry.lookup, registerDeployment, h]

/-!
## C7 — the cache-names CLI emits exactly the reversed cache-key list
-/

theorem foldl_push_eq_map {α β : Type} (f : α → β) (l : List α) :
    ∀ init : List β,
      l.foldl (fun acc s => acc ++ [f s]) init = init ++ l.map f := by
  induction l with
  | nil => intro init; simp
  | cons a rest ih =>
    intro init
    simp only [List.foldl_cons, List.map_cons, ih, List.append_assoc,
      List.singleton_append]

/-- C7: the `get-deployment-all-cache-names` handler prints exactly the
JSON array of the deployment's per-step cache keys in reverse of their
sequence order (the last step's key first), with no transformation of
the key strings beyond JSON quoting. -/
theorem get_deployment_all_cache_names_contract (hash : List Nat → String)
    (fs : FS) (d : Deployment) :
    getDeploymentAllCacheNames hash fs d
      = jsonDumpsStrings ((d.steps.map (fun s => cacheKey hash s fs)).reverse) := by
  unfold getDeploymentAllCacheNames
  rw [foldl_push_eq_map, List.nil_append]

/-!
## C5 — deploy runs each step exactly once, in order, with its own
cache sub-directory
-/

theorem runInDocker_runLog (hash : List Nat → String) (fs : FS) (s : DStep)
    (cd : Option String) (w : World) :
    (runInDocker hash fs s cd w).runLog = w.runLog := by
  unfold runInDocker
  by_cases h1 : resultImageName hash s fs ∈ w.images
  · simp [h1]
  · cases cd with
    | none => simp [h1]
    | some c =>
      by_cases h2 : (c ++ "/" ++ resultImageName hash s fs) ∈ w.cacheFiles <;>
        simp [h1, h2]

theorem runStep_runLog (hash : List Nat → String) (fs : FS) (s : DStep)
    (cd : Option String) (w : World) :
    (runStep hash fs s cd w).runLog = w.runLog ++ [(s, cd)] := by
  unfold runStep
  cases hd : s.inDocker
  · simp [hd, runLocally]
  · simp [hd, runInDocker_runLog]

theorem foldl_runStep_runLog (hash : List Nat → String) (fs : FS)
    (cdOf : DStep → Option String) :
    ∀ (l : List DStep) (w : World),
      (l.foldl (fun w s => runStep hash fs s (cdOf s) w) w).runLog
        = w.runLog ++ l.map (fun s => (s, cdOf s)) := by
  intro l
  induction l with
  | nil => intro w; simp
  | cons a rest ih =>
    intro w
    simp only [List.foldl_cons, List.map_cons, ih, runStep_runLog,
      List.append_assoc, List.singleton_append]

theorem string_append_right_cancel {a b c : String} (h : a ++ b = a ++ c) :
    b = c := by
  apply String.ext
  have := congrArg String.data h
  simp only [String.data_append] at this
  exact List.append_cancel_left this

/-- C5: with a cache directory supplied, `deploy` records exactly one
`run` invocation per step, in the step sequence order, each receiving
the per-step cache sub-directory `cache_dir/<that step's cache key>`;
two steps receive the same cache path only if their cache keys are the
very same string, so steps with distinct keys never share a cache
path. -/
theorem deploy_runs_each_step_once_in_order (hash : List Nat → String)
    (fs : FS) (d : Deployment) (cd : String) (w : World) :
    (deploy hash fs d (some cd) w).runLog
      = w.runLog
          ++ d.steps.map (fun s => (s, some (cd ++ "/" ++ cacheKey hash s fs)))
    ∧ ∀ s t : DStep, cacheKey hash s fs ≠ cacheKey hash t fs →
        (cd ++ "/" ++ cacheKey hash s fs) ≠ (cd ++ "/" ++ cacheKey hash t fs) := by
  constructor
  · exact foldl_runStep_runLog hash fs
      (fun s => some (cd ++ "/" ++ cacheKey hash s fs)) d.steps w
  · intro s t hne heq
    exact hne (string_append_right_cancel heq)

/-- Witness for C5: the two-step docker deployment's run log lists both
steps in order with their key-named cache sub-directories. -/
theorem deploy_runs_each_step_once_in_order_witness :
    (deploy demoHash collisionFS1
        ⟨"witness", "x86_64", [collisionStep]⟩ (some "cache") emptyWorld).runLog
      = emptyWorld.runLog
          ++ [collisionStep].map
              (fun s => (s, some ("cache" ++ "/" ++ cacheKey demoHash s collisionFS1))) :=
  (deploy_runs_each_step_once_in_order demoHash collisionFS1
    ⟨"witness", "x86_64", [collisionStep]⟩ "cache" emptyWorld).1

/-!
## C4 — second deploy: dockerized steps short-circuit, local script
steps run again
-/

theorem self_mem_images_runInDocker (hash : List Nat → String) (fs : FS)
    (s : DStep) (cd : Option String) (w : World) :
    resultImageName hash s fs ∈ (runInDocker hash fs s cd w).images := by
  unfold runInDocker
  by_cases h1 : resultImageName hash s fs ∈ w.images
  · simp [h1]
  · cases cd with
    | none => simp [h1]
    | some c =>
      by_cases h2 : (c ++ "/" ++ resultImageName hash s fs) ∈ w.cacheFiles <;>
        simp [h1, h2]

theorem mem_images_runStep (hash : List Nat → String) (fs : FS) (s : DStep)
    (cd : Option String) (w : World) (x : String) (h : x ∈ w.images) :
    x ∈ (runStep hash fs s cd w).images := by
  unfold runStep runInDocker
  cases hd : s.inDocker
  · simpa [hd, runLocally] using h
  · simp only [hd, if_true]
    by_cases h1 : resultImageName hash s fs ∈ w.images
    · simpa [h1] using h
    · cases cd with
      | none => simpa [h1] using List.mem_cons_of_mem _ h
      | some c =>
        by_cases h2 : (c ++ "/" ++ resultImageName hash s fs) ∈ w.cacheFiles <;>
          simpa [h1, h2] using List.mem_cons_of_mem _ h

theorem self_mem_images_runStep (hash : List Nat → String) (fs : FS)
    (s : DStep) (cd : Option String) (w : World) (hd : s.inDocker = true) :
    resultImageName hash s fs ∈ (runStep hash fs s cd w).images := by
  unfold runStep
  simpa [hd] using self_mem_images_runInDocker hash fs s cd
    { w with runLog := w.runLog ++ [(s, cd)] }

theorem runStep_of_image_present (hash : List Nat → String) (fs : FS)
    (s : DStep) (cd : Option String) (w : World) (hd : s.inDocker = true)
    (hmem : resultImageName hash s fs ∈ w.images) :
    runStep hash fs s cd w = { w with runLog := w.runLog ++ [(s, cd)] } := by
  unfold runStep runInDocker
  simp [hd, hmem]

theorem mem_images_foldl_runStep (hash : List Nat → String) (fs : FS)
    (cdOf : DStep → Option String) :
    ∀ (l : List DStep) (w : World) (x : String), x ∈ w.images →
      x ∈ (l.foldl (fun w s => runStep hash fs s (cdOf s) w) w).images := by
  intro l
  induction l with
  | nil => intro w x h; simpa using h
  | cons a rest ih =>
    intro w x h
    simp only [List.foldl_cons]
    exact ih _ x (mem_images_runStep hash fs a (cdOf a) w x h)

theorem all_images_after_foldl_runStep (hash : List Nat → String) (fs : FS)
    (cdOf : DStep → Option String) :
    ∀ (l : List DStep) (w : World), (∀ s ∈ l, s.inDocker = true) →
      ∀ s ∈ l, resultImageName hash s fs
        ∈ (l.foldl (fun w s => runStep hash fs s (cdOf s) w) w).images := by
  intro l
  induction l with
  | nil => intro w _ s hs; cases hs
  | cons a rest ih =>
    intro w hall s hs
    simp only [List.foldl_cons]
    rcases List.mem_cons.mp hs with rfl | hs'
    · exact mem_images_foldl_runStep hash fs cdOf rest _ _
        (self_mem_images_runStep hash fs s (cdOf s) w
          (hall s (List.mem_cons_self ..)))
    · exact ih _ (fun t ht => hall t (List.mem_cons_of_mem _ ht)) s hs'

theorem foldl_runStep_noop (hash : List Nat → String) (fs : FS)
    (cdOf : DStep → Option String) :
    ∀ (l : List DStep) (w : World),
      (∀ s ∈ l, s.inDocker = true ∧ resultImageName hash s fs ∈ w.images) →
      (l.foldl (fun w s => runStep hash fs s (cdOf s) w) w).execLog = w.execLog
      ∧ (l.foldl (fun w s => runStep hash fs s (cdOf s) w) w).images = w.images := by
  intro l
  induction l with
  | nil => intro w _; exact ⟨rfl, rfl⟩
  | cons a rest ih =>
    intro w hall
    obtain ⟨hd, hmem⟩ := hall a (List.mem_cons_self ..)
    simp only [List.foldl_cons,
      runStep_of_image_present hash fs a (cdOf a) w hd hmem]
    exact ih { w with runLog := w.runLog ++ [(a, cdOf a)] }
      (fun t ht => hall t (List.mem_cons_of_mem _ ht))

/-- C4 (amended): when every step of the deployment is dockerized, a
second `deploy` with the same cache directory over the same filesystem
performs zero executor invocations — each step finds its result image
already present and returns — and leaves the image set unchanged. -/
theorem second_deploy_skips_docker_steps (hash : List Nat → String) (fs : FS)
    (d : Deployment) (cd : Option String) (w : World)
    (h : ∀ s ∈ d.steps, s.inDocker = true) :
    (deploy hash fs d cd (deploy hash fs d cd w)).execLog
      = (deploy hash fs d cd w).execLog
    ∧ (deploy hash fs d cd (deploy hash fs d cd w)).images
      = (deploy hash fs d cd w).images := by
  have himg : ∀ s ∈ d.steps, resultImageName hash s fs
      ∈ (deploy hash fs d cd w).images :=
    all_images_after_foldl_runStep hash fs
      (fun s => cd.map (fun c => c ++ "/" ++ cacheKey hash s fs)) d.steps w h
  exact foldl_runStep_noop hash fs
    (fun s => cd.map (fun c => c ++ "/" ++ cacheKey hash s fs)) d.steps
    (deploy hash fs d cd w) (fun s hs => ⟨h s hs, himg s hs⟩)

/-- A dockerized two-step chain: a dockerfile-based python step on a
`centos:6` base image, then a chained requirements step. -/
def dockerStepA : DStep :=
  .base "InstallPythonStep" "x86_64" (some "centos:6") [["Dockerfile"]]

def dockerStepB : DStep :=
  .chain "InstallBuildRequirementsStep" "x86_64" dockerStepA [["req.txt"]]

def dockerFS : FS :=
  [⟨["Dockerfile"], 33188, [70]⟩, ⟨["req.txt"], 33188, [114]⟩]

def dockerDeployment : Deployment :=
  ⟨"linux_package_builder", "x86_64", [dockerStepA, dockerStepB]⟩

def dockerDeployedOnce : World :=
  deploy demoHash dockerFS dockerDeployment (some "cache") emptyWorld

/-- Witness for the amended C4: the concrete dockerized deployment is
fully skipped by its second `deploy`. -/
theorem second_deploy_skips_docker_steps_witness :
    (∀ s ∈ dockerDeployment.steps, DStep.inDocker s = true)
    ∧ (deploy demoHash dockerFS dockerDeployment (some "cache")
          dockerDeployedOnce).execLog
        = dockerDeployedOnce.execLog :=
  ⟨by decide,
   (second_deploy_skips_docker_steps demoHash dockerFS dockerDeployment
     (some "cache") emptyWorld (by decide)).1⟩

/-- A non-dockerized shell-script step (no base image anywhere): its
`run` always dispatches to `_run_locally`, which runs the script
subprocess unconditionally. -/
def localStep : DStep :=
  .base "InstallBuildRequirementsStep" "x86_64" none
    [["agent_build", "requirement-files", "main.txt"]]

def localFS : FS :=
  [⟨["agent_build", "requirement-files", "main.txt"], 33188, [114]⟩]

def localDeployment : Deployment := ⟨"test_environment", "x86_64", [localStep]⟩

def localDeployedOnce : World :=
  deploy demoHash localFS localDeployment (some "cache") emptyWorld

def localDeployedTwice : World :=
  deploy demoHash localFS localDeployment (some "cache") localDeployedOnce

/-- Counterexample for C4 as stated: for a deployment whose step is not
dockerized, the second `deploy` with the same cache directory and
unchanged filesystem invokes the step's executor again — the executor
log grows from one to two invocations instead of staying at one. -/
theorem second_deploy_reruns_local_step :
    DStep.inDocker localStep = false
    ∧ localDeployedOnce.execLog = [DStep.uniqueName localStep]
    ∧ localDeployedTwice.execLog
        = [DStep.uniqueName localStep, DStep.uniqueName localStep] := by
  refine ⟨by decide, by decide, by decide⟩

/-!
## C6 — cache-key / result-image-name format
-/

/-- A dockerized step whose base image contains upper-case letters. -/
def upperBaseStep : DStep :=
  .base "InstallPythonStep" "x86_64" (some "Ubuntu:20.04") []

def upperDeployment : Deployment :=
  ⟨"upper_deployment", "x86_64", [upperBaseStep]⟩

def emptyFS : FS := []

/-- Two three-step chains that differ only in the kind of the step at
the root of the predecessor chain. -/
def chainRootA : DStep := .base "StepA" "x86_64" (some "centos:6") []

def chainRootX : DStep := .base "StepX" "x86_64" (some "centos:6") []

def chainMidA : DStep := .chain "StepB" "x86_64" chainRootA []

def chainMidX : DStep := .chain "StepB" "x86_64" chainRootX []

def chainTopA : DStep := .chain "StepC" "x86_64" chainMidA []

def chainTopX : DStep := .chain "StepC" "x86_64" chainMidX []

/-- Counterexample for C6: the step-level result image name of a
dockerized step is not lowercased (an upper-case base image name
survives into it), the Deployment's `result_image_name` is the
lowercased variant and hence differs from the last step's result image
name, and `unique_name` does not encode the whole predecessor chain —
two different chains that agree only below the immediate predecessor
share the same unique name. -/
theorem result_image_name_not_lowercased :
    DStep.inDocker upperBaseStep = true
    ∧ resultImageName demoHash upperBaseStep emptyFS
        ≠ strLower (resultImageName demoHash upperBaseStep emptyFS)
    ∧ Deployment.resultImageName demoHash emptyFS upperDeployment
        ≠ some (resultImageName demoHash upperBaseStep emptyFS)
    ∧ chainTopA ≠ chainTopX
    ∧ DStep.uniqueName chainTopA = DStep.uniqueName chainTopX := by
  refine ⟨by decide, by decide, by decide, by decide, by decide⟩

/-- C6 (amended): a step's result image name equals its cache key,
which is `<unique_name>_<checksum>` with no lowercasing applied at the
step level; `unique_name` is the snake-cased kind name, the immediate
predecessor's kind name when chained, the architecture value, and —
when dockerized — the initiating base image with `:` replaced by `_`;
a Deployment's `result_image_name` is the *lowercased* result image
name of its last step. -/
theorem result_image_name_format (hash : List Nat → String) (fs : FS)
    (s p : DStep) (k a img n₂ a₂ : String) (f : List FilePath')
    (steps : List DStep) (t : DStep) :
    resultImageName hash s fs = DStep.uniqueName s ++ "_" ++ checksum hash s fs
    ∧ DStep.uniqueName (.base k a (some img) f)
        = snakeCase k ++ "_" ++ a ++ "_" ++ colonToUnderscore img
    ∧ DStep.uniqueName (.base k a none f) = snakeCase k ++ "_" ++ a
    ∧ DStep.uniqueName (.chain k a p f)
        = snakeCase k ++ "_" ++ DStep.name p ++ "_" ++ a
            ++ (match DStep.initialDockerImage p with
                | some i => "_" ++ colonToUnderscore i
                | none => "")
    ∧ Deployment.resultImageName hash fs ⟨n₂, a₂, steps ++ [t]⟩
        = some (strLower (resultImageName hash t fs)) := by
  refine ⟨rfl, rfl, rfl, ?_, ?_⟩
  · cases hbi : DStep.initialDockerImage p with
    | none =>
      simp [DStep.uniqueName, DStep.name, DStep.kind, DStep.arch,
        DStep.initialDockerImage, hbi, String.append_assoc]
    | some i =>
      simp [DStep.uniqueName, DStep.name, DStep.kind, DStep.arch,
        DStep.initialDockerImage, hbi, String.append_assoc]
  · simp [Deployment.resultImageName, List.getLast?_concat]

/-!
## C8 — failure handling: propagation, no promotion, container cleanup
-/

/-- A containerized builder step used for the failure scenarios. -/
def failingBuilderStep : ABStep := ⟨"install_gcc", "install_gcc__0abc", true⟩

def emptyBWorld : BWorld := ⟨[], []⟩

def failedBuilderRun : BWorld × Except String Unit :=
  abRun "build_root" failingBuilderStep false emptyBWorld

/-- Counterexample for C8 as stated: a failing containerized
`ArtifactBuilderStep.run` propagates the error and does not promote its
temp output, but the transient container `agent-build-builder-step` is
*not* removed on the failure path — it is still present when the error
propagates (it is only removed lazily by the next run, or after a
success). -/
theorem failed_builder_step_leaves_container :
    failedBuilderRun.2.isOk = false
    ∧ abContainerName ∈ failedBuilderRun.1.containers
    ∧ outputDirectory "build_root" failingBuilderStep
        ∉ failedBuilderRun.1.dirs := by
  refine ⟨by decide, by decide, by decide⟩

theorem temp_ne_output (buildRoot : String) (s : ABStep) :
    tempOutputDirectory buildRoot s ≠ outputDirectory buildRoot s := by
  intro h
  unfold tempOutputDirectory outputDirectory at h
  have hlen := congrArg String.length h
  rw [String.length_append, String.length_append, String.length_append,
    String.length_append] at hlen
  have e1 : "/step_outputs/~".length = 15 := by decide
  have e2 : "/step_outputs/".length = 14 := by decide
  omega

theorem abRunInner_fail (s : ABStep) (w : BWorld) :
    (abRunInner s false w).2.isOk = false
    ∧ (abRunInner s false w).1.dirs = w.dirs := by
  unfold abRunInner abRunInDocker
  cases hr : s.runsInDocker <;> simp [Except.isOk, Except.toBool]

theorem not_mem_removeByName_of_not_mem {x y : String} {l : List String}
    (h : x ∉ l) : x ∉ removeByName y l := by
  intro hmem
  exact h (List.mem_filter.mp hmem).1

theorem self_not_mem_removeByName (x : String) (l : List String) :
    x ∉ removeByName x l := by
  intro hmem
  have := (List.mem_filter.mp hmem).2
  simp at this

/-- C8 (amended): a failing step execution propagates the error as
fatal; the partial output in the temp-output directory is never renamed
onto the final cache-addressed output directory; the shell-script
deployment step's `finally:` block removes the intermediate container
on the success path and on the failure path alike — while the
`ArtifactBuilderStep` variant (see the counterexample) removes its
container only after a success. -/
theorem failure_propagates_without_promotion (buildRoot : String)
    (s : ABStep) (w : BWorld) (hout : outputDirectory buildRoot s ∉ w.dirs)
    (hash : List Nat → String) (fs : FS) (t : DStep) (ok : Bool) (wo : World) :
    (abRun buildRoot s false w).2.isOk = false
    ∧ outputDirectory buildRoot s ∉ (abRun buildRoot s false w).1.dirs
    ∧ (shellRunInDockerImpl hash fs t false wo).2.isOk = false
    ∧ intermediateImageName hash t fs
        ∉ (shellRunInDockerImpl hash fs t ok wo).1.containers := by
  have habr : (abRun buildRoot s false w).2.isOk = false
      ∧ outputDirectory buildRoot s ∉ (abRun buildRoot s false w).1.dirs := by
    unfold abRun
    rw [if_neg hout]
    rcases hres : abRunInner s false
        { w with dirs := tempOutputDirectory buildRoot s
            :: removeByName (tempOutputDirectory buildRoot s) w.dirs }
      with ⟨w₂, r⟩
    have h2 := abRunInner_fail s
      { w with dirs := tempOutputDirectory buildRoot s
          :: removeByName (tempOutputDirectory buildRoot s) w.dirs }
    rw [hres] at h2
    cases r with
    | ok u =>
      cases u
      simp [Except.isOk, Except.toBool] at h2
    | error e =>
      simp only [hres]
      refine ⟨rfl, ?_⟩
      rw [h2.2]
      intro hmem
      rcases List.mem_cons.mp hmem with heq | hmem'
      · exact temp_ne_output buildRoot s heq.symm
      · exact not_mem_removeByName_of_not_mem hout hmem'
  refine ⟨habr.1, habr.2, ?_, ?_⟩
  · rfl
  · unfold shellRunInDockerImpl
    cases ok <;> simp [removeByName, List.mem_filter]

/-- Witness for the amended C8, at a concrete failing builder step and
a concrete shell step in a non-trivial world. -/
theorem failure_propagates_without_promotion_witness :
    (outputDirectory "build_root" failingBuilderStep ∉ emptyBWorld.dirs)
    ∧ (abRun "build_root" failingBuilderStep false emptyBWorld).2.isOk = false
    ∧ intermediateImageName demoHash dockerStepA dockerFS
        ∉ (shellRunInDockerImpl demoHash dockerFS dockerStepA true
            emptyWorld).1.containers :=
  ⟨by decide,
   (failure_propagates_without_promotion "build_root" failingBuilderStep
     emptyBWorld (by decide) demoHash dockerFS dockerStepA true emptyWorld).1,
   (failure_propagates_without_promotion "build_root" failingBuilderStep
     emptyBWorld (by decide) demoHash dockerFS dockerStepA true
     emptyWorld).2.2.2⟩

end ScalyrDeploy
